import Mathlib

/-!
Verification of the crawl orchestration engine of NepaliCorpusCrawler
(src/crawler.py), shallowly embedded in Lean 4.

The embedding covers:
* `clean_text`, `normalize_url`, the acceptance test on extracted text
  (Python truthiness plus `str.splitlines`),
* the frontier queue (`list.pop(0)` / `list.append`) and visited set,
* the main loop of `create_nepali_corpus` as a fuel-indexed step function
  over an explicit `CrawlState`, with the fetch/extract collaborators
  abstracted into an `Env` record of pure oracles,
* checkpointing (`save_state` calls recorded in a log) and
  `load_state` / resume fallback.

Machine integers do not overflow here (Python ints are unbounded), so
counters are `Nat`.
-/

namespace Crawler

/-- Python `str.splitlines` line-boundary characters (\x0b, \x0c, file/group/
record separators, NEL, LINE SEPARATOR, PARAGRAPH SEPARATOR; \r\n handled
as a pair in `splitlinesAux`). -/
def isLineBoundary (c : Char) : Bool :=
  c = '\n' || c = '\r' || c = '\x0b' || c = '\x0c' ||
  c = Char.ofNat 0x1c || c = Char.ofNat 0x1d || c = Char.ofNat 0x1e ||
  c = Char.ofNat 0x85 || c = Char.ofNat 0x2028 || c = Char.ofNat 0x2029

/-- Helper for `splitlines`: walk the character list, accumulating the
current line (reversed) in `acc`; a `\r\n` pair counts as one boundary. -/
def splitlinesAux : List Char → List Char → List String
  | [], acc => if acc.isEmpty then [] else [String.mk acc.reverse]
  | '\r' :: '\n' :: rest, acc => String.mk acc.reverse :: splitlinesAux rest []
  | c :: rest, acc =>
      if isLineBoundary c then String.mk acc.reverse :: splitlinesAux rest []
      else splitlinesAux rest (c :: acc)

/-- Python `str.splitlines()` (without keepends): `"".splitlines() = []`,
a trailing newline does not produce an extra empty line. -/
def splitlines (s : String) : List String := splitlinesAux s.data []

/-- Python whitespace characters: the set matched by `\s` in a `re` pattern
over `str` (and stripped by `str.strip()`). -/
def isPySpace (c : Char) : Bool :=
  c = ' ' || c = '\t' || c = '\n' || c = '\r' || c = '\x0b' || c = '\x0c' ||
  c = Char.ofNat 0x1c || c = Char.ofNat 0x1d || c = Char.ofNat 0x1e ||
  c = Char.ofNat 0x1f || c = Char.ofNat 0x85 || c = Char.ofNat 0xa0 ||
  c = Char.ofNat 0x1680 ||
  (0x2000 ≤ c.toNat && c.toNat ≤ 0x200a) ||
  c = Char.ofNat 0x2028 || c = Char.ofNat 0x2029 ||
  c = Char.ofNat 0x202f || c = Char.ofNat 0x205f || c = Char.ofNat 0x3000

/-- The character class kept by `clean_text`'s regex
`[^ऀ-ॿ\s।?!]` → a character survives iff it is in the Devanagari
block U+0900–U+097F, is whitespace, or is one of `।`, `?`, `!`. -/
def keepChar (c : Char) : Bool :=
  (0x900 ≤ c.toNat && c.toNat ≤ 0x97f) || isPySpace c ||
  c = Char.ofNat 0x964 || c = '?' || c = '!'

/-- The function `clean_text(text)`: `re.sub(r'[^ऀ-ॿ\s।?!]', '', text)`
deletes every character outside the kept class. -/
def clean_text (s : String) : String := String.mk (s.data.filter keepChar)

/-- Python `str.strip()`: drop leading and trailing whitespace. -/
def pyStrip (s : String) : String :=
  String.mk (((s.data.dropWhile isPySpace).reverse.dropWhile isPySpace).reverse)

/-- Python `sep.join(parts)`. -/
def pyJoin (sep : String) : List String → String
  | [] => ""
  | [t] => t
  | t :: rest => t ++ sep ++ pyJoin sep rest

/-- The paragraph loop of `extract_nepali_text_from_url`, abstracted over the
already-fetched paragraph texts and the `is_nepali` language test: keep each
stripped paragraph that is non-empty (Python truthiness) and Nepali, clean
it, and join with a single space; `None` when nothing was kept. -/
def extract_nepali_text (paragraphs : List String) (is_nepali : String → Bool) :
    Option String :=
  let nepali_texts :=
    ((paragraphs.map pyStrip).filter (fun t => !t.isEmpty && is_nepali t)).map clean_text
  if nepali_texts.isEmpty then none else some (pyJoin (" ") nepali_texts)

/-- Core of `normalize_url` on the character list: `re.match(r'^https?:/[^/]', url)`
then `re.sub(r'^(https?:)/([^/])', r'\1//\2', url)`. -/
def normalize_url_core : List Char → List Char
  | 'h' :: 't' :: 't' :: 'p' :: ':' :: '/' :: c :: rest =>
      if c = '/' then 'h' :: 't' :: 't' :: 'p' :: ':' :: '/' :: c :: rest
      else 'h' :: 't' :: 't' :: 'p' :: ':' :: '/' :: '/' :: c :: rest
  | 'h' :: 't' :: 't' :: 'p' :: 's' :: ':' :: '/' :: c :: rest =>
      if c = '/' then 'h' :: 't' :: 't' :: 'p' :: 's' :: ':' :: '/' :: c :: rest
      else 'h' :: 't' :: 't' :: 'p' :: 's' :: ':' :: '/' :: '/' :: c :: rest
  | l => l

/-- The function `normalize_url(url)`: repair a single slash after the scheme. -/
def normalize_url (url : String) : String := String.mk (normalize_url_core url.data)

/-- The test `re.match(r'^https?:/[^/]', url)` of line 73: the URL starts
with `http:` or `https:` followed by a single slash and a non-slash
character. -/
def malformedScheme : List Char → Bool
  | 'h' :: 't' :: 't' :: 'p' :: ':' :: '/' :: c :: _ => c ≠ '/'
  | 'h' :: 't' :: 't' :: 'p' :: 's' :: ':' :: '/' :: c :: _ => c ≠ '/'
  | _ => false

/-- Constant `SAVE_INTERVAL = 100`. -/
def SAVE_INTERVAL : Nat := 100

/-- One record written by `save_state`: the dict
`{'queue': ..., 'visited': ..., 'page_count': ..., 'crawled_pages': ...}`. -/
structure Checkpoint where
  queue : List (String × Nat)
  visited : List String
  page_count : Nat
  crawled_pages : Nat
deriving Repr, DecidableEq

/-- The mutable state of `create_nepali_corpus`, plus two observation logs:
`saved` records each `save_text_to_file` call (file name, text) and
`checkpoints` records each `save_state` call. `visited` is the Python set
modelled as a duplicate-free insertion-ordered list (membership is what the
code uses). -/
structure CrawlState where
  queue : List (String × Nat)
  visited : List String
  page_count : Nat
  crawled_pages : Nat
  saved : List (String × String)
  checkpoints : List Checkpoint
deriving Repr, DecidableEq

/-- The crawl's external collaborators and policy knobs, as pure oracles:
`fetchText url` is the result of `extract_nepali_text_from_url(url)` and
`fetchLinks url` the (deterministically ordered) result of
`get_internal_links(url, base)`. -/
structure Env where
  fetchText : String → Option String
  fetchLinks : String → List String
  max_pages : Nat
  max_depth : Nat

/-- Python `queue.append((url, depth))`: enqueue at the tail. -/
def enqueue (q : List (String × Nat)) (e : String × Nat) : List (String × Nat) :=
  q ++ [e]

/-- Python `queue.pop(0)`: dequeue from the head, `none` on an empty queue. -/
def dequeueNext (q : List (String × Nat)) :
    Option ((String × Nat) × List (String × Nat)) :=
  match q with
  | [] => none
  | e :: rest => some (e, rest)

/-- Repeatedly dequeue, collecting the results in order (fuel-indexed). -/
def drainQueue : Nat → List (String × Nat) → List (String × Nat)
  | 0, _ => []
  | fuel + 1, q =>
      match dequeueNext q with
      | none => []
      | some (e, rest) => e :: drainQueue fuel rest

/-- The acceptance test `nepali_text and len(nepali_text.splitlines()) > 1`:
Python truthiness of the optional string, then more than one line. -/
def acceptPage : Option String → Bool
  | none => false
  | some t => !t.isEmpty && decide (1 < (splitlines t).length)

/-- The artifact name `f'page_\x7bpage_count + 1\x7d.txt'`. -/
def pageFileName (n : Nat) : String := "page_" ++ toString n ++ ".txt"

/-- The links appended after processing a page at depth `d`
(lines 271–275): only when `current_depth < max_depth`, each fetched link
not already visited is paired with depth `d + 1`. The visited set already
contains the current URL at this point. -/
def childEntries (env : Env) (visited : List String) (u : String) (d : Nat) :
    List (String × Nat) :=
  if d < env.max_depth then
    ((env.fetchLinks u).filter (fun l => !visited.contains l)).map
      (fun l => (l, d + 1))
  else []

/-- One iteration of the `while` body (lines 234–275), assuming the loop
guard held: pop the head; discard it when already visited or too deep;
otherwise mark visited, bump `crawled_pages`, fetch/extract, on accept save
the page, bump `page_count` and checkpoint at every `SAVE_INTERVAL`-th
accepted page, and finally append unvisited child links. -/
def crawlStep (env : Env) (s : CrawlState) : CrawlState :=
  match dequeueNext s.queue with
  | none => s
  | some ((current_url, current_depth), rest) =>
    if current_url ∈ s.visited ∨ env.max_depth < current_depth then
      { s with queue := rest }
    else
      let visited' := s.visited ++ [current_url]
      let crawled' := s.crawled_pages + 1
      let text := env.fetchText current_url
      let q' := (childEntries env visited' current_url current_depth).foldl enqueue rest
      if acceptPage text then
        let pc := s.page_count + 1
        let saved' := s.saved ++ [(pageFileName pc, text.getD (""))]
        let cps :=
          if pc % SAVE_INTERVAL = 0 then
            s.checkpoints ++ [⟨rest, visited', pc, crawled'⟩]
          else s.checkpoints
        { queue := q', visited := visited', page_count := pc,
          crawled_pages := crawled', saved := saved', checkpoints := cps }
      else
        { queue := q', visited := visited', page_count := s.page_count,
          crawled_pages := crawled', saved := s.saved,
          checkpoints := s.checkpoints }

/-- The loop guard `page_count < max_pages and queue and not shutdown_flag`
(line 233). -/
def loopGuard (env : Env) (stop : Bool) (s : CrawlState) : Bool :=
  decide (s.page_count < env.max_pages) && !s.queue.isEmpty && !stop

/-- The `while` loop, fuel-indexed; `stop` models the (cooperatively read)
`shutdown_flag`. -/
def crawlLoop (env : Env) (stop : Bool) : Nat → CrawlState → CrawlState
  | 0, s => s
  | fuel + 1, s =>
      if loopGuard env stop s then crawlLoop env stop fuel (crawlStep env s)
      else s

/-- The `finally` block (lines 282–290): after the loop exits — budget
reached, frontier exhausted, stop requested, or interrupt — `save_state` is
called unconditionally on the final state. -/
def crawlRun (env : Env) (stop : Bool) (fuel : Nat) (s : CrawlState) :
    CrawlState :=
  let f := crawlLoop env stop fuel s
  { f with checkpoints :=
      f.checkpoints ++ [⟨f.queue, f.visited, f.page_count, f.crawled_pages⟩] }

/-- A fresh `CrawlState` (lines 214–225): frontier seeded from the start
URL's outbound links at depth 1, empty visited set, zero counters. -/
def freshState (initial_links : List String) : CrawlState :=
  { queue := initial_links.map (fun l => (l, 1)), visited := [],
    page_count := 0, crawled_pages := 0, saved := [], checkpoints := [] }

/-- What `load_state` can find at the checkpoint path. -/
inductive FileContent where
  | missing
  | corrupt
  | valid (c : Checkpoint)
deriving Repr, DecidableEq

/-- Loader `load_state(state_file)` (lines 181–190): `open`/`pickle.load` raise on a
missing or corrupt file; the `except` clause turns any such error into
`None`. -/
def load_state : FileContent → Option Checkpoint
  | FileContent.missing => none
  | FileContent.corrupt => none
  | FileContent.valid c => some c

/-- The INIT phase of `create_nepali_corpus` (lines 203–226): resume only
when requested and the file exists and loads to a truthy state; otherwise
start fresh from the seed links. -/
def initState (resume : Bool) (fileExists : Bool) (fc : FileContent)
    (initial_links : List String) : CrawlState :=
  if resume && fileExists then
    match load_state fc with
    | some c =>
        { queue := c.queue, visited := c.visited, page_count := c.page_count,
          crawled_pages := c.crawled_pages, saved := [], checkpoints := [] }
    | none => freshState initial_links
  else freshState initial_links

/-- Every frontier entry's depth is within the crawl's depth bound. -/
def depthBounded (env : Env) (s : CrawlState) : Prop :=
  ∀ e ∈ s.queue, e.2 ≤ env.max_depth

/-- A concrete environment for exercising the crawl loop: page "A" yields
two-line Nepali text and links "B", "C"; everything else yields nothing. -/
def envW : Env :=
  { fetchText := fun u => if u = "A" then some (String.mk ['क', '\n', 'ख']) else none,
    fetchLinks := fun u => if u = "A" then ["B", "C"] else [],
    max_pages := 1, max_depth := 2 }

/-- A concrete state one accepted page short of the periodic checkpoint
interval. -/
def s99 : CrawlState :=
  { queue := [("A", 1)], visited := [], page_count := 99, crawled_pages := 120,
    saved := [], checkpoints := [] }

/- ------------------------------------------------------------------ -/
/- Theorems.                                                          -/
/- ------------------------------------------------------------------ -/

theorem string_mk_data (u : String) : String.mk u.data = u := rfl

theorem normalize_repair_http (c : Char) (rest : List Char) (hc : c ≠ '/') :
    normalize_url_core ('h' :: 't' :: 't' :: 'p' :: ':' :: '/' :: c :: rest) =
      'h' :: 't' :: 't' :: 'p' :: ':' :: '/' :: '/' :: c :: rest := by
  simp [normalize_url_core, hc]

theorem normalize_repair_https (c : Char) (rest : List Char) (hc : c ≠ '/') :
    normalize_url_core ('h' :: 't' :: 't' :: 'p' :: 's' :: ':' :: '/' :: c :: rest) =
      'h' :: 't' :: 't' :: 'p' :: 's' :: ':' :: '/' :: '/' :: c :: rest := by
  simp [normalize_url_core, hc]

theorem normalize_wf_core (l : List Char) (h : malformedScheme l = false) :
    normalize_url_core l = l := by
  rw [normalize_url_core.eq_def]
  split
  · rename_i c rest
    simp [malformedScheme] at h
    simp [h]
  · rename_i c rest
    simp [malformedScheme] at h
    simp [h]
  · rfl

theorem malformedScheme_cases (l : List Char) (h : malformedScheme l = true) :
    (∃ c rest, c ≠ '/' ∧ l = 'h' :: 't' :: 't' :: 'p' :: ':' :: '/' :: c :: rest) ∨
    (∃ c rest, c ≠ '/' ∧
      l = 'h' :: 't' :: 't' :: 'p' :: 's' :: ':' :: '/' :: c :: rest) := by
  rw [malformedScheme.eq_def] at h
  split at h
  · rename_i c rest
    exact Or.inl ⟨c, rest, by simpa using h, rfl⟩
  · rename_i c rest
    exact Or.inr ⟨c, rest, by simpa using h, rfl⟩
  · simp at h

theorem normalize_url_core_idem (l : List Char) :
    normalize_url_core (normalize_url_core l) = normalize_url_core l := by
  cases h : malformedScheme l with
  | false =>
      rw [normalize_wf_core l h]
      exact normalize_wf_core l h
  | true =>
      rcases malformedScheme_cases l h with ⟨c, rest, hc, rfl⟩ | ⟨c, rest, hc, rfl⟩
      · rw [normalize_repair_http c rest hc]
        rfl
      · rw [normalize_repair_https c rest hc]
        rfl

/-- C9: `normalize_url` repairs a malformed scheme separator — a single
slash after `http:` or `https:` becomes a double slash, with
`http:/example.com/a` normalizing to `http://example.com/a` — leaves every
URL not matching the malformed pattern (in particular every well-formed
URL) unchanged, and is idempotent. -/
theorem normalize_url_spec :
    normalize_url ("http:/example.com/a") = "http://example.com/a" ∧
    (∀ c : Char, ∀ rest : List Char, c ≠ '/' →
      normalize_url (String.mk ('h' :: 't' :: 't' :: 'p' :: ':' :: '/' :: c :: rest)) =
        String.mk ('h' :: 't' :: 't' :: 'p' :: ':' :: '/' :: '/' :: c :: rest)) ∧
    (∀ c : Char, ∀ rest : List Char, c ≠ '/' →
      normalize_url
          (String.mk ('h' :: 't' :: 't' :: 'p' :: 's' :: ':' :: '/' :: c :: rest)) =
        String.mk ('h' :: 't' :: 't' :: 'p' :: 's' :: ':' :: '/' :: '/' :: c :: rest)) ∧
    (∀ u : String, malformedScheme u.data = false → normalize_url u = u) ∧
    (∀ u : String, normalize_url (normalize_url u) = normalize_url u) := by
  refine ⟨by decide, ?_, ?_, ?_, ?_⟩
  · intro c rest hc
    show String.mk (normalize_url_core _) = _
    rw [normalize_repair_http c rest hc]
  · intro c rest hc
    show String.mk (normalize_url_core _) = _
    rw [normalize_repair_https c rest hc]
  · intro u h
    show String.mk (normalize_url_core u.data) = u
    rw [normalize_wf_core u.data h]
  · intro u
    show String.mk (normalize_url_core (String.mk (normalize_url_core u.data)).data) =
      String.mk (normalize_url_core u.data)
    exact congrArg String.mk (normalize_url_core_idem u.data)

/-- Witness for C9 at concrete inputs. -/
theorem normalize_url_spec_witness :
    normalize_url (String.mk ['h', 't', 't', 'p', ':', '/', 'e']) =
        String.mk ['h', 't', 't', 'p', ':', '/', '/', 'e'] ∧
    normalize_url (String.mk ['h', 't', 't', 'p', 's', ':', '/', 'e']) =
        String.mk ['h', 't', 't', 'p', 's', ':', '/', '/', 'e'] ∧
    normalize_url ("ftp:/x") = "ftp:/x" :=
  ⟨normalize_url_spec.2.1 'e' [] (by decide),
   normalize_url_spec.2.2.1 'e' [] (by decide),
   normalize_url_spec.2.2.2.1 ("ftp:/x") (by decide)⟩

theorem clean_text_mem (s : String) (c : Char) (hc : c ∈ (clean_text s).data) :
    keepChar c = true := by
  simp only [clean_text, string_mk_data, List.mem_filter] at hc
  exact hc.2

theorem pyJoin_space_mem : ∀ parts : List String,
    (∀ t ∈ parts, ∀ c ∈ t.data, keepChar c = true) →
    ∀ c ∈ (pyJoin (" ") parts).data, keepChar c = true
  | [], _, c, hc => by simp [pyJoin] at hc
  | [t], hp, c, hc => hp t (by simp) c (by simpa [pyJoin] using hc)
  | t :: t2 :: rest, hp, c, hc => by
      rw [show pyJoin (" ") (t :: t2 :: rest) = t ++ " " ++ pyJoin (" ") (t2 :: rest) from rfl]
        at hc
      rcases (by simpa [String.data_append] using hc :
          c ∈ t.data ∨ c = ' ' ∨ c ∈ (pyJoin (" ") (t2 :: rest)).data) with h | h | h
      · exact hp t (by simp) c h
      · subst h; rfl
      · exact pyJoin_space_mem (t2 :: rest) (fun x hx => hp x (by simp [hx])) c h

/-- C10: `keepChar` is exactly "Devanagari block U+0900–U+097F, whitespace,
or one of `।`, `?`, `!`"; every character of `clean_text`'s output
satisfies it; and every text returned by `extract_nepali_text` — the
content of every saved page artifact, a space-join of `clean_text`
outputs — consists only of such characters. -/
theorem clean_text_charset :
    (∀ c : Char, keepChar c = true ↔
      ((0x900 ≤ c.toNat ∧ c.toNat ≤ 0x97f) ∨ isPySpace c = true ∨
        c = Char.ofNat 0x964 ∨ c = '?' ∨ c = '!')) ∧
    (∀ s : String, ∀ c ∈ (clean_text s).data, keepChar c = true) ∧
    (∀ ps f t, extract_nepali_text ps f = some t →
      ∀ c ∈ t.data, keepChar c = true) := by
  refine ⟨?_, ?_, ?_⟩
  · intro c
    simp only [keepChar, Bool.or_eq_true, Bool.and_eq_true, decide_eq_true_eq]
    tauto
  · exact fun s c hc => clean_text_mem s c hc
  · intro ps f t ht c hc
    simp only [extract_nepali_text] at ht
    split at ht
    · simp at ht
    · injection ht with ht
      subst ht
      refine pyJoin_space_mem _ ?_ c hc
      intro x hx c' hc'
      simp only [List.mem_map] at hx
      rcases hx with ⟨y, hy, rfl⟩
      exact clean_text_mem y c' hc'

/-- Witness for C10 at concrete inputs. -/
theorem clean_text_charset_witness :
    keepChar 'क' = true ∧ keepChar ' ' = true :=
  ⟨clean_text_charset.2.1 (String.mk ['क']) 'क' (by decide),
   clean_text_charset.2.2 [String.mk ['क', ' ', 'ख']] (fun _ => true)
     (pyJoin (" ") [clean_text (String.mk ['क', ' ', 'ख'])]) rfl ' ' (by decide)⟩

theorem foldl_enqueue : ∀ ls q : List (String × Nat), List.foldl enqueue q ls = q ++ ls
  | [], q => by simp
  | e :: ls, q => by
      rw [List.foldl_cons, foldl_enqueue ls (enqueue q e)]
      simp [enqueue]

theorem crawlStep_discard (env : Env) (s : CrawlState) (u : String) (d : Nat)
    (rest : List (String × Nat)) (hq : s.queue = (u, d) :: rest)
    (h : u ∈ s.visited ∨ env.max_depth < d) :
    crawlStep env s = { s with queue := rest } := by
  simp only [crawlStep, hq, dequeueNext]
  rw [if_pos h]

theorem crawlStep_accept (env : Env) (s : CrawlState) (u : String) (d : Nat)
    (rest : List (String × Nat)) (hq : s.queue = (u, d) :: rest)
    (hv : u ∉ s.visited) (hd : d ≤ env.max_depth)
    (ha : acceptPage (env.fetchText u) = true) :
    crawlStep env s =
      { queue := rest ++ childEntries env (s.visited ++ [u]) u d,
        visited := s.visited ++ [u],
        page_count := s.page_count + 1,
        crawled_pages := s.crawled_pages + 1,
        saved := s.saved ++ [(pageFileName (s.page_count + 1), (env.fetchText u).getD (""))],
        checkpoints :=
          if (s.page_count + 1) % SAVE_INTERVAL = 0 then
            s.checkpoints ++
              [⟨rest, s.visited ++ [u], s.page_count + 1, s.crawled_pages + 1⟩]
          else s.checkpoints } := by
  have hcond : ¬ (u ∈ s.visited ∨ env.max_depth < d) := by
    push_neg
    exact ⟨hv, hd⟩
  simp only [crawlStep, hq, dequeueNext]
  rw [if_neg hcond]
  simp only [ha, if_true, foldl_enqueue]

theorem crawlStep_reject (env : Env) (s : CrawlState) (u : String) (d : Nat)
    (rest : List (String × Nat)) (hq : s.queue = (u, d) :: rest)
    (hv : u ∉ s.visited) (hd : d ≤ env.max_depth)
    (ha : acceptPage (env.fetchText u) = false) :
    crawlStep env s =
      { queue := rest ++ childEntries env (s.visited ++ [u]) u d,
        visited := s.visited ++ [u],
        page_count := s.page_count,
        crawled_pages := s.crawled_pages + 1,
        saved := s.saved,
        checkpoints := s.checkpoints } := by
  have hcond : ¬ (u ∈ s.visited ∨ env.max_depth < d) := by
    push_neg
    exact ⟨hv, hd⟩
  simp only [crawlStep, hq, dequeueNext]
  rw [if_neg hcond]
  simp only [ha, Bool.false_eq_true, if_false, foldl_enqueue]

theorem childEntries_mem (env : Env) (v : List String) (u : String) (d : Nat)
    (e : String × Nat) (he : e ∈ childEntries env v u d) :
    d < env.max_depth ∧ e.2 = d + 1 := by
  unfold childEntries at he
  split at he
  · rename_i h
    simp only [List.mem_map] at he
    rcases he with ⟨l, _, rfl⟩
    exact ⟨h, rfl⟩
  · simp at he

/-- C1: a URL is added to the visited set exactly when it is dequeued for
processing, and at most once: dequeuing an already-visited URL discards it
changing nothing but the queue (no counter, artifact or checkpoint change);
dequeuing an unvisited URL within the depth bound appends exactly that URL
to the visited set and counts it as crawled; the visited set stays
duplicate-free. -/
theorem visited_once (env : Env) (s : CrawlState) (u : String) (d : Nat)
    (rest : List (String × Nat)) (hq : s.queue = (u, d) :: rest) :
    (u ∈ s.visited → crawlStep env s = { s with queue := rest }) ∧
    (u ∉ s.visited → d ≤ env.max_depth →
      (crawlStep env s).visited = s.visited ++ [u] ∧
      (crawlStep env s).crawled_pages = s.crawled_pages + 1) ∧
    (s.visited.Nodup → (crawlStep env s).visited.Nodup) := by
  refine ⟨fun hv => crawlStep_discard env s u d rest hq (Or.inl hv), ?_, ?_⟩
  · intro hv hd
    cases ha : acceptPage (env.fetchText u) with
    | true =>
        rw [crawlStep_accept env s u d rest hq hv hd ha]
        exact ⟨rfl, rfl⟩
    | false =>
        rw [crawlStep_reject env s u d rest hq hv hd ha]
        exact ⟨rfl, rfl⟩
  · intro hnd
    by_cases hv : u ∈ s.visited
    · rw [crawlStep_discard env s u d rest hq (Or.inl hv)]
      exact hnd
    · by_cases hd : d ≤ env.max_depth
      · have hvis : (crawlStep env s).visited = s.visited ++ [u] := by
          cases ha : acceptPage (env.fetchText u) with
          | true => rw [crawlStep_accept env s u d rest hq hv hd ha]
          | false => rw [crawlStep_reject env s u d rest hq hv hd ha]
        rw [hvis, List.nodup_append]
        exact ⟨hnd, List.nodup_singleton u, by simpa [List.disjoint_singleton] using hv⟩
      · rw [crawlStep_discard env s u d rest hq (Or.inr (Nat.not_le.mp hd))]
        exact hnd

/-- Witness for C1 at a concrete state. -/
theorem visited_once_witness :
    (crawlStep envW (freshState ["A", "B"])).visited =
        (freshState ["A", "B"]).visited ++ ["A"] ∧
    (crawlStep envW (freshState ["A", "B"])).crawled_pages =
        (freshState ["A", "B"]).crawled_pages + 1 :=
  (visited_once envW (freshState ["A", "B"]) "A" 1 [("B", 1)] rfl).2.1
    (by decide) (by decide)

theorem drainQueue_self : ∀ es : List (String × Nat), drainQueue es.length es = es
  | [] => rfl
  | e :: es => by
      rw [List.length_cons, drainQueue]
      simp only [dequeueNext]
      rw [drainQueue_self es]

/-- C2: the frontier is FIFO — `enqueue` appends to the tail, `dequeueNext`
pops from the head, and draining a queue built by any sequence of enqueues
returns the entries in exactly the order enqueued; each loop iteration
keeps the dequeued-off tail in order, only appending newly discovered
entries behind it. -/
theorem frontier_fifo :
    (∀ q : List (String × Nat), ∀ e, enqueue q e = q ++ [e]) ∧
    (∀ e : String × Nat, ∀ q, dequeueNext (e :: q) = some (e, q)) ∧
    (∀ es : List (String × Nat),
      drainQueue es.length (List.foldl enqueue [] es) = es) ∧
    (∀ env s u d rest, dequeueNext s.queue = some ((u, d), rest) →
      (crawlStep env s).queue =
        rest ++
          (if u ∈ s.visited ∨ env.max_depth < d then []
           else childEntries env (s.visited ++ [u]) u d)) := by
  refine ⟨fun q e => rfl, fun e q => rfl, ?_, ?_⟩
  · intro es
    rw [foldl_enqueue, List.nil_append]
    exact drainQueue_self es
  · intro env s u d rest hdq
    have hq : s.queue = (u, d) :: rest := by
      cases hx : s.queue with
      | nil =>
          rw [hx] at hdq
          exact absurd hdq (by simp [dequeueNext])
      | cons e q =>
          rw [hx] at hdq
          simp only [dequeueNext, Option.some.injEq, Prod.mk.injEq] at hdq
          rw [hdq.1, hdq.2]
    by_cases hcond : u ∈ s.visited ∨ env.max_depth < d
    · rw [crawlStep_discard env s u d rest hq hcond]
      rw [if_pos hcond, List.append_nil]
    · rw [if_neg hcond]
      push_neg at hcond
      cases ha : acceptPage (env.fetchText u) with
      | true => rw [crawlStep_accept env s u d rest hq hcond.1 hcond.2 ha]
      | false => rw [crawlStep_reject env s u d rest hq hcond.1 hcond.2 ha]

/-- Witness for C2 at a concrete state. -/
theorem frontier_fifo_witness :
    (crawlStep envW (freshState ["A", "B"])).queue =
      [("B", 1)] ++
        (if ("A") ∈ (freshState ["A", "B"]).visited ∨ envW.max_depth < 1 then []
         else childEntries envW ((freshState ["A", "B"]).visited ++ ["A"]) "A" 1) :=
  frontier_fifo.2.2.2 envW (freshState ["A", "B"]) "A" 1 [("B", 1)] rfl

theorem crawlStep_page_le (env : Env) (s : CrawlState) :
    (crawlStep env s).page_count ≤ s.page_count + 1 := by
  cases hq : s.queue with
  | nil =>
      have : crawlStep env s = s := by simp [crawlStep, hq, dequeueNext]
      rw [this]
      exact Nat.le_succ _
  | cons e rest =>
      rcases e with ⟨u, d⟩
      by_cases hcond : u ∈ s.visited ∨ env.max_depth < d
      · rw [crawlStep_discard env s u d rest hq hcond]
        exact Nat.le_succ _
      · push_neg at hcond
        cases ha : acceptPage (env.fetchText u) with
        | true =>
            rw [crawlStep_accept env s u d rest hq hcond.1 hcond.2 ha]
        | false =>
            rw [crawlStep_reject env s u d rest hq hcond.1 hcond.2 ha]
            exact Nat.le_succ _

theorem crawlLoop_page_le (env : Env) (stop : Bool) :
    ∀ (fuel : Nat) (s : CrawlState), s.page_count ≤ env.max_pages →
      (crawlLoop env stop fuel s).page_count ≤ env.max_pages
  | 0, s, h => h
  | fuel + 1, s, h => by
      rw [crawlLoop]
      split
      · rename_i hg
        refine crawlLoop_page_le env stop fuel (crawlStep env s) ?_
        have hlt : s.page_count < env.max_pages := by
          simp only [loopGuard, Bool.and_eq_true, decide_eq_true_eq] at hg
          exact hg.1.1
        exact le_trans (crawlStep_page_le env s) (Nat.succ_le_of_lt hlt)
      · exact h

/-- C3: the crawl loop executes a step iff `pages_saved < maxPages`, the
frontier is non-empty and no stop has been requested; and whenever the run
halts with the guard false while the frontier is still non-empty and no
stop was requested — i.e. the frontier yielded enough acceptable pages
before exhaustion — it stops with `pages_saved = maxPages` exactly. -/
theorem budget_termination (env : Env) :
    (∀ stop s fuel, crawlLoop env stop (fuel + 1) s =
      if loopGuard env stop s then crawlLoop env stop fuel (crawlStep env s) else s) ∧
    (∀ stop s, loopGuard env stop s = true ↔
      (s.page_count < env.max_pages ∧ s.queue ≠ [] ∧ stop = false)) ∧
    (∀ fuel s, s.page_count ≤ env.max_pages →
      loopGuard env false (crawlLoop env false fuel s) = false →
      (crawlLoop env false fuel s).queue ≠ [] →
      (crawlLoop env false fuel s).page_count = env.max_pages) := by
  refine ⟨fun stop s fuel => by rw [crawlLoop], ?_, ?_⟩
  · intro stop s
    simp only [loopGuard, Bool.and_eq_true, decide_eq_true_eq, Bool.not_eq_true',
      List.isEmpty_eq_false, and_assoc]
  · intro fuel s h0 hguard hq
    have hle := crawlLoop_page_le env false fuel s h0
    refine le_antisymm hle (Nat.le_of_not_lt fun hlt => ?_)
    have hne : (crawlLoop env false fuel s).queue.isEmpty = false := by
      cases hx : (crawlLoop env false fuel s).queue with
      | nil => exact absurd hx hq
      | cons a q => rfl
    have hg : loopGuard env false (crawlLoop env false fuel s) = true := by
      unfold loopGuard
      rw [hne, decide_eq_true hlt]
      rfl
    rw [hg] at hguard
    exact Bool.noConfusion hguard

/-- Witness for C3 at a concrete run that meets its budget with the
frontier still non-empty. -/
theorem budget_termination_witness :
    (crawlLoop envW false 5 (freshState ["A", "B"])).page_count = envW.max_pages :=
  (budget_termination envW).2.2 5 (freshState ["A", "B"])
    (by decide) (by decide) (by decide)

theorem string_isEmpty_false (t : String) : t.isEmpty = false ↔ t ≠ "" := by
  constructor
  · intro h he
    rw [he] at h
    exact absurd h (by decide)
  · intro h
    cases hb : t.isEmpty with
    | false => rfl
    | true => exact absurd ((String.isEmpty_iff t).mp hb) h

/-- C4: a dequeued, processed page is accepted iff the extracted text is
non-empty and spans more than one line; on accept it is persisted as the
sequentially-named artifact `page_{pages_saved+1}.txt` and `pages_saved` is
incremented by one; otherwise `pages_saved` and the artifact log are
unchanged. -/
theorem accept_policy (env : Env) (s : CrawlState) (u : String) (d : Nat)
    (rest : List (String × Nat)) (hq : s.queue = (u, d) :: rest)
    (hv : u ∉ s.visited) (hd : d ≤ env.max_depth) :
    (acceptPage (env.fetchText u) = true ↔
      ∃ t, env.fetchText u = some t ∧ t ≠ "" ∧ 1 < (splitlines t).length) ∧
    (∀ t, env.fetchText u = some t → acceptPage (env.fetchText u) = true →
      (crawlStep env s).page_count = s.page_count + 1 ∧
      (crawlStep env s).saved =
        s.saved ++ [(pageFileName (s.page_count + 1), t)]) ∧
    (acceptPage (env.fetchText u) = false →
      (crawlStep env s).page_count = s.page_count ∧
      (crawlStep env s).saved = s.saved) := by
  refine ⟨?_, ?_, ?_⟩
  · cases ht : env.fetchText u with
    | none => simp [acceptPage]
    | some t =>
        simp only [acceptPage, Bool.and_eq_true, Bool.not_eq_true',
          decide_eq_true_eq, Option.some.injEq]
        constructor
        · rintro ⟨he, hl⟩
          exact ⟨t, rfl, (string_isEmpty_false t).mp he, hl⟩
        · rintro ⟨t2, h2, hne, hl⟩
          cases h2
          exact ⟨(string_isEmpty_false t).mpr hne, hl⟩
  · intro t ht ha
    rw [crawlStep_accept env s u d rest hq hv hd ha]
    simp [ht]
  · intro ha
    rw [crawlStep_reject env s u d rest hq hv hd ha]
    exact ⟨rfl, rfl⟩

/-- Witness for C4 at a concrete accepted page. -/
theorem accept_policy_witness :
    (crawlStep envW (freshState ["A", "B"])).page_count =
        (freshState ["A", "B"]).page_count + 1 ∧
    (crawlStep envW (freshState ["A", "B"])).saved =
      (freshState ["A", "B"]).saved ++
        [(pageFileName ((freshState ["A", "B"]).page_count + 1),
          String.mk ['क', '\n', 'ख'])] :=
  (accept_policy envW (freshState ["A", "B"]) "A" 1 [("B", 1)] rfl
      (by decide) (by decide)).2.1
    (String.mk ['क', '\n', 'ख']) (by decide) (by decide)

/-- C5: seed entries enter the frontier at depth 1; the children of a page
at depth `d` are enqueued exactly at depth `d + 1`, and only when
`d < maxDepth`; a fresh frontier is depth-bounded whenever `maxDepth ≥ 1`,
and every crawl step preserves depth-boundedness, so no reachable frontier
entry exceeds `maxDepth`. -/
theorem depth_monotonic (env : Env) :
    (∀ links : List String, ∀ e ∈ (freshState links).queue, e.2 = 1) ∧
    (∀ v u d, ∀ e ∈ childEntries env v u d, e.2 = d + 1) ∧
    (∀ v u d, ¬ d < env.max_depth → childEntries env v u d = []) ∧
    (∀ links : List String, 1 ≤ env.max_depth → depthBounded env (freshState links)) ∧
    (∀ s, depthBounded env s → depthBounded env (crawlStep env s)) := by
  refine ⟨?_, ?_, ?_, ?_, ?_⟩
  · intro links e he
    simp only [freshState, List.mem_map] at he
    rcases he with ⟨l, _, rfl⟩
    rfl
  · intro v u d e he
    exact (childEntries_mem env v u d e he).2
  · intro v u d h
    simp [childEntries, h]
  · intro links h1 e he
    simp only [freshState, List.mem_map] at he
    rcases he with ⟨l, _, rfl⟩
    exact h1
  · intro s hs e he
    cases hq : s.queue with
    | nil =>
        have hid : crawlStep env s = s := by simp [crawlStep, hq, dequeueNext]
        rw [hid] at he
        exact hs e he
    | cons p rest =>
        rcases p with ⟨u, d⟩
        have hrest : ∀ x ∈ rest, (x : String × Nat).2 ≤ env.max_depth :=
          fun x hx => hs x (by rw [hq]; exact List.mem_cons_of_mem _ hx)
        by_cases hcond : u ∈ s.visited ∨ env.max_depth < d
        · rw [crawlStep_discard env s u d rest hq hcond] at he
          exact hrest e he
        · push_neg at hcond
          have hql : (crawlStep env s).queue =
              rest ++ childEntries env (s.visited ++ [u]) u d := by
            cases ha : acceptPage (env.fetchText u) with
            | true => rw [crawlStep_accept env s u d rest hq hcond.1 hcond.2 ha]
            | false => rw [crawlStep_reject env s u d rest hq hcond.1 hcond.2 ha]
          rw [hql] at he
          rcases List.mem_append.mp he with h | h
          · exact hrest e h
          · have := childEntries_mem env (s.visited ++ [u]) u d e h
            rw [this.2]
            exact Nat.succ_le_of_lt this.1

/-- Witness for C5 at concrete inputs. -/
theorem depth_monotonic_witness :
    (("B", 2) : String × Nat).2 = 1 + 1 ∧ childEntries envW [] "A" 2 = [] :=
  ⟨(depth_monotonic envW).2.1 ["A"] "A" 1 ("B", 2) (by decide),
   (depth_monotonic envW).2.2.1 [] "A" 2 (by decide)⟩

/-- C6: `pages_saved ≤ pages_crawled` holds in the fresh initial state and
is preserved by every single loop iteration and by the whole loop:
`pages_crawled` rises by one for each processed page while `pages_saved`
rises by at most one. -/
theorem saved_le_crawled (env : Env) :
    (∀ links : List String,
      (freshState links).page_count ≤ (freshState links).crawled_pages) ∧
    (∀ s, s.page_count ≤ s.crawled_pages →
      (crawlStep env s).page_count ≤ (crawlStep env s).crawled_pages) ∧
    (∀ stop fuel s, s.page_count ≤ s.crawled_pages →
      (crawlLoop env stop fuel s).page_count ≤
        (crawlLoop env stop fuel s).crawled_pages) := by
  have hstep : ∀ s : CrawlState, s.page_count ≤ s.crawled_pages →
      (crawlStep env s).page_count ≤ (crawlStep env s).crawled_pages := by
    intro s h
    cases hq : s.queue with
    | nil =>
        have hid : crawlStep env s = s := by simp [crawlStep, hq, dequeueNext]
        rw [hid]
        exact h
    | cons p rest =>
        rcases p with ⟨u, d⟩
        by_cases hcond : u ∈ s.visited ∨ env.max_depth < d
        · rw [crawlStep_discard env s u d rest hq hcond]
          exact h
        · push_neg at hcond
          cases ha : acceptPage (env.fetchText u) with
          | true =>
              rw [crawlStep_accept env s u d rest hq hcond.1 hcond.2 ha]
              exact Nat.succ_le_succ h
          | false =>
              rw [crawlStep_reject env s u d rest hq hcond.1 hcond.2 ha]
              exact le_trans h (Nat.le_succ _)
  have hloop : ∀ (stop : Bool) (fuel : Nat) (s : CrawlState),
      s.page_count ≤ s.crawled_pages →
      (crawlLoop env stop fuel s).page_count ≤
        (crawlLoop env stop fuel s).crawled_pages := by
    intro stop fuel
    induction fuel with
    | zero => exact fun s h => h
    | succ n ih =>
        intro s h
        rw [crawlLoop]
        split
        · exact ih (crawlStep env s) (hstep s h)
        · exact h
  exact ⟨fun links => Nat.le_refl 0, hstep, hloop⟩

/-- Witness for C6 on a concrete run. -/
theorem saved_le_crawled_witness :
    (crawlLoop envW false 5 (freshState ["A", "B"])).page_count ≤
      (crawlLoop envW false 5 (freshState ["A", "B"])).crawled_pages :=
  (saved_le_crawled envW).2.2 false 5 (freshState ["A", "B"]) (by decide)

/-- C7: a full checkpoint (frontier queue, visited set, both counters) is
written by the step at every periodic interval point — each accepted page
making `pages_saved` a multiple of `SAVE_INTERVAL` — and once more,
unconditionally, after the loop exits on any path (budget reached, frontier
exhausted, stop requested or interrupt), before the run ends. -/
theorem checkpoint_paths (env : Env) :
    (∀ s u d rest, s.queue = (u, d) :: rest → u ∉ s.visited →
      d ≤ env.max_depth → acceptPage (env.fetchText u) = true →
      (s.page_count + 1) % SAVE_INTERVAL = 0 →
      (crawlStep env s).checkpoints =
        s.checkpoints ++
          [⟨rest, s.visited ++ [u], s.page_count + 1, s.crawled_pages + 1⟩]) ∧
    (∀ stop fuel s,
      (crawlRun env stop fuel s).checkpoints =
        (crawlLoop env stop fuel s).checkpoints ++
          [⟨(crawlLoop env stop fuel s).queue, (crawlLoop env stop fuel s).visited,
            (crawlLoop env stop fuel s).page_count,
            (crawlLoop env stop fuel s).crawled_pages⟩]) := by
  constructor
  · intro s u d rest hq hv hd ha hsi
    rw [crawlStep_accept env s u d rest hq hv hd ha]
    simp [hsi]
  · intro stop fuel s
    rfl

/-- Witness for C7: the hundredth accepted page triggers the periodic
checkpoint. -/
theorem checkpoint_paths_witness :
    (crawlStep envW s99).checkpoints =
      s99.checkpoints ++ [⟨[], [] ++ ["A"], 99 + 1, 120 + 1⟩] :=
  (checkpoint_paths envW).1 s99 ("A") 1 [] rfl (by decide) (by decide)
    (by decide) (by decide)

/-- C8: `load_state` yields `None` on a missing or corrupt checkpoint file
instead of propagating an error; whenever a requested resume cannot load a
state — the loader yields `None`, or the file does not exist — the driver
falls back to a fresh crawl (frontier seeded from the start URL's links at
depth 1, empty visited set, both counters zero) and never aborts. -/
theorem load_fallback :
    load_state FileContent.missing = none ∧
    load_state FileContent.corrupt = none ∧
    (∀ resume ex fc links, load_state fc = none →
      initState resume ex fc links = freshState links) ∧
    (∀ resume fc links, initState resume false fc links = freshState links) ∧
    (∀ links : List String, freshState links =
      { queue := links.map (fun l => (l, 1)), visited := [], page_count := 0,
        crawled_pages := 0, saved := [], checkpoints := [] }) := by
  refine ⟨rfl, rfl, ?_, ?_, fun links => rfl⟩
  · intro resume ex fc links h
    unfold initState
    cases hre : resume && ex with
    | false => rfl
    | true =>
        rw [h]
        simp
  · intro resume fc links
    unfold initState
    rw [Bool.and_false]
    rfl

/-- Witness for C8: a corrupt checkpoint with resume requested falls back
to the fresh state. -/
theorem load_fallback_witness :
    initState true true FileContent.corrupt ["X"] = freshState ["X"] :=
  load_fallback.2.2.1 true true FileContent.corrupt ["X"] rfl

end Crawler
